import Mathlib

/-
Verification of the broadcast-aware differentiation subsystem for elementwise
binary tensor operations (src/ops/binary_ops.rs of rust-autograd).

Dense arrays are embedded as a shape (list of axis sizes) plus a flat buffer in
row-major order.  The element type F stays abstract (the Rust code is generic
over T: Float); concrete evaluations instantiate F with Int.  Panics of the
Rust code are embedded as explicit error results.

The shape-descriptor second input of PreprocessBinOpGrad / PreprocessBinOpGradGrad
(an array whose runtime values are converted by ndarray_ext::as_shape) is
abstracted to the list of axis sizes it denotes.
-/

/-- Runtime failures (Rust panics) of the embedded code.
  incorrectGradientShape: the panic at binary_ops.rs line 62;
  unwrapNone: the panic of folded.unwrap() at line 69;
  indexOOB: ndarray index panic for x[IxDyn(&[])] when the array does not
    have rank 0 (a rank/ndim mismatch makes stride_offset_checked return None);
  broadcastFail: ndarray panic when the rhs of an arithmetic operator between
    two arrays cannot be broadcast to the shape of the lhs;
  cantBroadcast: the panic at line 110;
  axisOOB: ndarray fold_axis panic for an out-of-range axis;
  insertOOB: Vec::insert panic inside expand_dims / expand_dims_view when the
    insertion position exceeds the current rank. -/
inductive RtErr where
  | incorrectGradientShape
  | unwrapNone
  | indexOOB
  | broadcastFail
  | cantBroadcast
  | axisOOB
  | insertOOB
deriving DecidableEq

/-- A dense N-dimensional array: a shape and a flat row-major data buffer. -/
structure Arr (F : Type) where
  shape : List Nat
  data : List F
deriving DecidableEq

/-- Well-formedness: the buffer has exactly as many elements as the shape demands. -/
def Arr.wf {F : Type} (a : Arr F) : Prop := a.data.length = a.shape.prod

/-- Result of one compute invocation: a zero-copy view output
(ctx.append_output_view), an owned output (ctx.append_output), or a panic. -/
inductive CRes (F : Type) where
  | view (a : Arr F)
  | owned (a : Arr F)
  | panic (e : RtErr)
deriving DecidableEq

/-- All multi-indices of a shape, in row-major order. -/
def idxList : List Nat → List (List Nat)
  | [] => [[]]
  | d :: rest => (List.range d).flatMap (fun i => (idxList rest).map (fun is => i :: is))

/-- Row-major flat position of a multi-index (defined for equal-length lists). -/
def flatIndex : List Nat → List Nat → Nat
  | _ :: rest, i :: is => i * rest.prod + flatIndex rest is
  | _, _ => 0

/-- ndarray broadcast compatibility: axes aligned from the trailing side, a
source axis must equal the destination axis or be 1, and missing leading axes
are treated as stretched. -/
def broadcastable : List Nat → List Nat → Bool
  | s, [] => s.isEmpty
  | s, d0 :: dstR =>
    if s.length = dstR.length + 1 then
      match s with
      | [] => false
      | s0 :: sR => ((s0 == d0) || (s0 == 1)) && broadcastable sR dstR
    else broadcastable s dstR

/-- Map a destination multi-index back to a source multi-index under
broadcasting: drop the extra leading coordinates, and clamp to 0 on stretched
(size-1) source axes. -/
def bcastIdx : List Nat → List Nat → List Nat
  | _, [] => []
  | s, i0 :: idxR =>
    if s.length = idxR.length + 1 then
      match s with
      | [] => []
      | s0 :: sR => (if s0 = 1 then 0 else i0) :: bcastIdx sR idxR
    else bcastIdx s idxR

/-- Sequence a list of optional values. -/
def seqOpt {α : Type} : List (Option α) → Option (List α)
  | [] => some []
  | none :: _ => none
  | some a :: rest => (seqOpt rest).map (fun l => a :: l)

/-- Data buffer of broadcasting an array of shape src to shape dst (ndarray
broadcast view, read out in row-major order of dst). -/
def broadcastData {F : Type} (src : List Nat) (data : List F) (dst : List Nat) : Option (List F) :=
  if broadcastable src dst then
    seqOpt ((idxList dst).map (fun idx => data[flatIndex src (bcastIdx src idx)]?))
  else none

/-- Broadcast-aware read of one element at a destination multi-index. -/
def readAt {F : Type} (a : Arr F) (idx : List Nat) : Option F :=
  a.data[flatIndex a.shape (bcastIdx a.shape idx)]?

/-- ndarray arithmetic between two array references: elementwise if the shapes
agree, otherwise the rhs is broadcast to the shape of the lhs (panicking if
that is not possible).  This is the semantics of the ndarray version the
source uses; there is no co-broadcasting of both sides. -/
def ndBinOp {F : Type} (f : F → F → F) (x0 x1 : Arr F) : CRes F :=
  if x0.shape = x1.shape then .owned ⟨x0.shape, List.zipWith f x0.data x1.data⟩
  else
    match broadcastData x1.shape x1.data x0.shape with
    | some bd => .owned ⟨x0.shape, List.zipWith f x0.data bd⟩
    | none => .panic .broadcastFail

/-- The element read x[IxDyn(&[])]: succeeds exactly on rank-0 arrays (ndarray
checks that the index ndim matches the array ndim, so any nonempty shape,
including the sentinel [0], panics with an index error). -/
def readEmpty {F : Type} (a : Arr F) : Option F :=
  if a.shape = ([] : List Nat) then a.data[0]? else none

/-- Remove the entry at a position of a shape; none when out of range. -/
def shapeRemove {α : Type} : Nat → List α → Option (List α)
  | _, [] => none
  | 0, _ :: xs => some xs
  | n+1, x :: xs => (shapeRemove n xs).map (fun l => x :: l)

/-- Insert an entry at a position of a shape (Vec::insert); none when the
position exceeds the length. -/
def shapeInsert {α : Type} : Nat → α → List α → Option (List α)
  | 0, v, l => some (v :: l)
  | _+1, _, [] => none
  | n+1, v, x :: xs => (shapeInsert n v xs).map (fun l => x :: l)

/-- Fold the leading axis of a row-major buffer holding d chunks of length
inner, combining chunks pointwise into the accumulator (fold order of ndarray
fold_axis: accumulator first, elements in axis order). -/
def axis0Fold {F : Type} (inner : Nat) (f : F → F → F) : List F → Nat → List F → List F
  | acc, 0, _ => acc
  | acc, d+1, data => axis0Fold inner f (List.zipWith f acc (data.take inner)) d (data.drop inner)

/-- Row-major buffer of ndarray fold_axis over the axis with outer blocks
before it, size d, and inner stride after it. -/
def foldAxisData {F : Type} (outer d inner : Nat) (init : F) (f : F → F → F) (data : List F) : List F :=
  (List.range outer).flatMap (fun o =>
    axis0Fold inner f (List.replicate inner init) d ((data.drop (o * (d * inner))).take (d * inner)))

/-- ndarray fold_axis: folds the given axis away (the result drops that axis);
none models the panic on an out-of-range axis. -/
def foldAxis {F : Type} (a : Arr F) (ax : Nat) (init : F) (f : F → F → F) : Option (Arr F) :=
  match shapeRemove ax a.shape with
  | none => none
  | some s' =>
    some ⟨s', foldAxisData (a.shape.take ax).prod (a.shape.getD ax 1) (a.shape.drop (ax+1)).prod init f a.data⟩

/-- Modelled from the spec: ndarray_ext::is_scalar_shape (the function itself
is outside the shown sources).  The empty shape denotes a true scalar and the
singleton shape [0] is the implementation sentinel that also denotes
scalar-like (spec section 4.1). -/
def isScalarShape (s : List Nat) : Bool := s == ([] : List Nat) || s == [0]

/-- The loop of PreprocessBinOpGrad::compute over the pairs of
x_shape.iter().zip(gy_shape).enumerate(): outcome of the loop body chain. -/
inductive LoopRes (F : Type) where
  | cont (folded : Option (Arr F))
  | fail (e : RtErr)

/-- The reduction loop of PreprocessBinOpGrad::compute (binary_ops.rs lines
43-67).  The pairs come from zipping x_shape with gy.shape() from the leading
axis; i is the running enumerate index; folded is the running partial result.
When a fold is needed, the axis is 0 for a scalar target, else i; for a
non-scalar target the squashed axis is re-inserted (ndarray_ext::expand_dims,
modelled from the spec as inserting a size-1 axis at the given position). -/
def reduceLoop {F : Type} [Zero F] [Add F] (gy : Arr F) (xsc : Bool) :
    Nat → List (Nat × Nat) → Option (Arr F) → LoopRes F
  | _, [], folded => .cont folded
  | i, (xa, ga) :: rest, folded =>
    if xa < ga then
      if xa = 1 then
        match foldAxis (folded.getD gy) (if xsc then 0 else i) 0 (fun a b => a + b) with
        | none => .fail .axisOOB
        | some ret =>
          if xsc then reduceLoop gy xsc (i+1) rest (some ret)
          else
            match shapeInsert i 1 ret.shape with
            | none => .fail .insertOOB
            | some s' => reduceLoop gy xsc (i+1) rest (some ⟨s', ret.data⟩)
      else .fail .incorrectGradientShape
    else reduceLoop gy xsc (i+1) rest folded

/-- PreprocessBinOpGrad::compute (binary_ops.rs lines 23-71): reduce the
incoming gradient gy to the target shape x_shape.  Equal shapes pass gy
through as a view; otherwise a scalar target is replaced by a same-rank
all-ones shape and the axis loop runs; a final None in folded hits
folded.unwrap(). -/
def reduceCompute {F : Type} [Zero F] [Add F] (gy : Arr F) (xShape : List Nat) : CRes F :=
  if xShape = gy.shape then .view gy
  else
    let xsc := isScalarShape xShape
    let x' := if xsc then List.replicate gy.shape.length 1 else xShape
    match reduceLoop gy xsc 0 (x'.zip gy.shape) none with
    | .fail e => .panic e
    | .cont none => .panic .unwrapNone
    | .cont (some a) => .owned a

/-- The loop of PreprocessBinOpGradGrad::compute over the entries of
target_shape (binary_ops.rs lines 100-104): each iteration passes the axis
size as the insertion position of ndarray_ext::expand_dims_view (modelled
from the spec as inserting a size-1 axis at the given position, failing when
the position exceeds the current rank, as Vec::insert does). -/
def expandLoop {F : Type} : Arr F → List Nat → Option (Arr F)
  | a, [] => some a
  | a, v :: rest =>
    match shapeInsert v 1 a.shape with
    | none => none
    | some s => expandLoop ⟨s, a.data⟩ rest

/-- PreprocessBinOpGradGrad::compute (binary_ops.rs lines 84-112): broadcast
gy to target_shape, first running the axis-insertion loop when gy is scalar. -/
def expandCompute {F : Type} (gy : Arr F) (target : List Nat) : CRes F :=
  if gy.shape = target then .view gy
  else
    match (if isScalarShape gy.shape then expandLoop gy target else some gy) with
    | none => .panic .insertOOB
    | some g =>
      match broadcastData g.shape g.data target with
      | some d => .owned ⟨target, d⟩
      | none => .panic .cantBroadcast

/-- Operator tags of the nodes the gradient steps of the two preprocess
operators build. -/
inductive OpTag where
  | preBinGrad
  | preBinGradGrad
deriving DecidableEq

/-- A node registered by a gradient step: operator plus ordered input node
references (Tensor::builder().set_ro_inputs(...).build(graph, op)). -/
structure BuiltNode (N : Type) where
  op : OpTag
  ins : List N
deriving DecidableEq

/-- The gradient-build context of a two-input node: its two symbolic inputs
and the incoming output gradient. -/
structure GradCtx (N : Type) where
  input0 : N
  input1 : N
  outputGrad : N

/-- PreprocessBinOpGrad::grad (binary_ops.rs lines 73-78): registers a
PreprocessBinOpGradGrad node over (output_grad, input 1) and marks input 1
non-differentiable. -/
def preprocessBinOpGrad_grad {N : Type} (c : GradCtx N) : List (Option (BuiltNode N)) :=
  [some ⟨.preBinGradGrad, [c.outputGrad, c.input1]⟩, none]

/-- PreprocessBinOpGradGrad::grad (binary_ops.rs lines 114-119): registers a
PreprocessBinOpGrad node over (input 0, output_grad) and marks input 1
non-differentiable. -/
def preprocessBinOpGradGrad_grad {N : Type} (c : GradCtx N) : List (Option (BuiltNode N)) :=
  [some ⟨.preBinGrad, [c.input0, c.outputGrad]⟩, none]

/-- The scalar test of the impl_bin_op_forward code template (binary_ops.rs
lines 240-244): the empty shape and the sentinel [0] both count as scalar. -/
def scalarLike (s : List Nat) : Bool := s == ([] : List Nat) || s == [0]

/-- The body of impl_bin_op_forward (binary_ops.rs lines 234-266), shared by
add_forward and mul_forward: scalar fast paths first, then the non-scalar
case which puts the larger-by-element-count operand on the left, else the
plain ndarray operation. -/
def binOpForward {F : Type} (f : F → F → F) (x0 x1 : Arr F) : CRes F :=
  if scalarLike x0.shape && !scalarLike x1.shape then
    match readEmpty x0 with
    | none => .panic .indexOOB
    | some e => .owned ⟨x1.shape, x1.data.map (fun a => f a e)⟩
  else if scalarLike x1.shape && !scalarLike x0.shape then
    match readEmpty x1 with
    | none => .panic .indexOOB
    | some e => .owned ⟨x0.shape, x0.data.map (fun a => f a e)⟩
  else if !scalarLike x0.shape && !scalarLike x1.shape then
    if x1.shape.prod < x0.shape.prod then ndBinOp f x0 x1 else ndBinOp f x1 x0
  else ndBinOp f x0 x1

/-- add_forward (binary_ops.rs line 268). -/
def add_forward {F : Type} [Add F] (x0 x1 : Arr F) : CRes F :=
  binOpForward (fun a b => a + b) x0 x1

/-- mul_forward (binary_ops.rs line 269). -/
def mul_forward {F : Type} [Mul F] (x0 x1 : Arr F) : CRes F :=
  binOpForward (fun a b => a * b) x0 x1

/-- SubOp::compute (binary_ops.rs lines 139-151): only an empty-shaped first
operand takes the scalar fast path (computing x0_elem - a pointwise),
otherwise the plain ndarray subtraction runs. -/
def sub_compute {F : Type} [Sub F] (x0 x1 : Arr F) : CRes F :=
  if x0.shape = ([] : List Nat) then
    match readEmpty x0 with
    | none => .panic .indexOOB
    | some e => .owned ⟨x1.shape, x1.data.map (fun a => e - a)⟩
  else ndBinOp (fun a b => a - b) x0 x1

/-- DivOp::compute (binary_ops.rs lines 180-200): the first operand is scalar
for shapes [] and [0], the second for shapes [] and [1]; a scalar second
operand multiplies the first operand by the reciprocal T::one() / x1_elem. -/
def div_compute {F : Type} [One F] [Mul F] [Div F] (x0 x1 : Arr F) : CRes F :=
  if x0.shape = ([] : List Nat) ∨ x0.shape = [0] then
    match readEmpty x0 with
    | none => .panic .indexOOB
    | some e => .owned ⟨x1.shape, x1.data.map (fun a => e / a)⟩
  else if x1.shape = ([] : List Nat) ∨ x1.shape = [1] then
    match readEmpty x1 with
    | none => .panic .indexOOB
    | some e => .owned ⟨x0.shape, x0.data.map (fun v => v * (1 / e))⟩
  else ndBinOp (fun a b => a / b) x0 x1

/-- Written from the specification wording only, for comparison: NumPy-style
broadcast join of two shapes, first argument not longer than the second
(trailing alignment, axes compatible when equal or either is 1, the result
axis is the non-1 size). -/
def npJoinLe : List Nat → List Nat → Option (List Nat)
  | s, [] => if s.isEmpty then some [] else none
  | s, t0 :: tR =>
    if s.length = tR.length + 1 then
      match s with
      | [] => none
      | s0 :: sR =>
        if s0 = t0 ∨ s0 = 1 ∨ t0 = 1 then
          (npJoinLe sR tR).map (fun r => (if s0 = 1 then t0 else s0) :: r)
        else none
    else (npJoinLe s tR).map (fun r => t0 :: r)

/-- Written from the specification wording only: the standard broadcast of two
shapes (section 4.1 of the spec). -/
def npJoin (s t : List Nat) : Option (List Nat) :=
  if s.length ≤ t.length then npJoinLe s t else npJoinLe t s

/-- Written from the specification wording only: the standard broadcast
elementwise combination of two arrays, stretching both operands to the joined
shape. -/
def npElementwise {F : Type} (f : F → F → F) (a b : Arr F) : Option (Arr F) :=
  match npJoin a.shape b.shape with
  | none => none
  | some sh =>
    (seqOpt ((idxList sh).map (fun idx =>
      match readAt a idx, readAt b idx with
      | some u, some v => some (f u v)
      | _, _ => none))).map (fun d => ⟨sh, d⟩)

/-- A multi-index is valid for a shape when it has the same rank and every
coordinate is within its axis size. -/
inductive ValidIdx : List Nat → List Nat → Prop where
  | nil : ValidIdx [] []
  | cons {d : Nat} {s : List Nat} {i : Nat} {is : List Nat} :
      i < d → ValidIdx s is → ValidIdx (d :: s) (i :: is)

-- Sanity checks of the embedding on concrete inputs.

example : reduceCompute (F := Int) ⟨[2,3], [1,2,3,4,5,6]⟩ [1,3] = .owned ⟨[1,3], [5,7,9]⟩ := by decide

example : add_forward (F := Int) ⟨[2,3], [1,1,1,1,1,1]⟩ ⟨[3], [1,1,1]⟩ = .owned ⟨[2,3], [2,2,2,2,2,2]⟩ := by decide

example : npElementwise (fun a b => a + b) (⟨[2,3], [1,1,1,1,1,1]⟩ : Arr Int) ⟨[3], [1,1,1]⟩ =
    some ⟨[2,3], [2,2,2,2,2,2]⟩ := by decide

example : sub_compute (F := Int) ⟨[], [5]⟩ ⟨[2], [1,2]⟩ = .owned ⟨[2], [4,3]⟩ := by decide

example : div_compute (F := Int) ⟨[2], [8,6]⟩ ⟨[], [1]⟩ = .owned ⟨[2], [8,6]⟩ := by decide

-- ### Lemmas about multi-index enumeration and option sequencing

theorem validIdx_length {s idx : List Nat} (h : ValidIdx s idx) : idx.length = s.length := by
  induction h with
  | nil => rfl
  | cons _ _ ih => simp [ih]

theorem mem_idxList_valid : ∀ {s idx : List Nat}, idx ∈ idxList s → ValidIdx s idx := by
  intro s
  induction s with
  | nil =>
    intro idx h
    simp [idxList] at h
    subst h
    exact .nil
  | cons d rest ih =>
    intro idx h
    rw [idxList, List.mem_flatMap] at h
    obtain ⟨i, hi, hmem⟩ := h
    rw [List.mem_map] at hmem
    obtain ⟨is, hmemis, rfl⟩ := hmem
    exact .cons (List.mem_range.mp hi) (ih hmemis)

theorem flatIndex_lt_prod {s idx : List Nat} (h : ValidIdx s idx) :
    flatIndex s idx < s.prod := by
  induction h with
  | nil => simp [flatIndex]
  | cons hi hv ih =>
    rename_i d ss i is
    rw [flatIndex, List.prod_cons]
    calc i * ss.prod + flatIndex ss is < i * ss.prod + ss.prod := by omega
    _ = (i + 1) * ss.prod := (Nat.succ_mul i ss.prod).symm
    _ ≤ d * ss.prod := Nat.mul_le_mul_right ss.prod hi

theorem sum_map_const {a : Type} : ∀ (l : List a) (c : Nat), (l.map (fun _ => c)).sum = l.length * c := by
  intro l c
  induction l with
  | nil => simp
  | cons x xs ih =>
    simp only [List.map_cons, List.sum_cons, List.length_cons, ih, Nat.add_mul, Nat.one_mul]
    omega

theorem idxList_length : ∀ (s : List Nat), (idxList s).length = s.prod := by
  intro s
  induction s with
  | nil => rfl
  | cons d rest ih =>
    rw [idxList, List.length_flatMap]
    have hcg : List.map (List.length ∘ fun i => (idxList rest).map (fun is => i :: is))
        (List.range d) = List.map (fun _ => rest.prod) (List.range d) := by
      apply List.map_congr_left
      intro i _
      simp [ih]
    rw [hcg, sum_map_const, List.length_range, List.prod_cons]

theorem seqOpt_nil {a : Type} : seqOpt ([] : List (Option a)) = some [] := rfl

theorem seqOpt_cons_none {a : Type} (rest : List (Option a)) :
    seqOpt (none :: rest) = none := rfl

theorem seqOpt_cons_some {a : Type} (x : a) (rest : List (Option a)) :
    seqOpt (some x :: rest) = (seqOpt rest).map (fun l => x :: l) := rfl

theorem seqOpt_append_some {a : Type} :
    ∀ (l1 l2 : List (Option a)) (u v : List a), seqOpt l1 = some u → seqOpt l2 = some v →
      seqOpt (l1 ++ l2) = some (u ++ v) := by
  intro l1
  induction l1 with
  | nil =>
    intro l2 u v h1 h2
    rw [seqOpt_nil] at h1
    cases h1
    simpa using h2
  | cons x xs ih =>
    intro l2 u v h1 h2
    cases x with
    | none => rw [seqOpt_cons_none] at h1; cases h1
    | some a =>
      rw [seqOpt_cons_some] at h1
      cases hxs : seqOpt xs with
      | none => rw [hxs] at h1; cases h1
      | some u2 =>
        rw [hxs] at h1
        have hu : u = a :: u2 := by
          have := h1
          simp at this
          exact this.symm
        subst hu
        rw [List.cons_append, seqOpt_cons_some, ih l2 u2 v hxs h2]
        rfl

theorem seqOpt_some_of_forall {a b : Type} :
    ∀ (l : List a) (f : a → Option b), (∀ x ∈ l, ∃ y, f x = some y) →
      ∃ out, seqOpt (l.map f) = some out ∧ out.length = l.length := by
  intro l f
  induction l with
  | nil => exact fun _ => ⟨[], rfl, rfl⟩
  | cons x xs ih =>
    intro h
    obtain ⟨y, hy⟩ := h x (by simp)
    obtain ⟨out, hout, hlen⟩ := ih (fun z hz => h z (by simp [hz]))
    refine ⟨y :: out, ?_, by simp [hlen]⟩
    rw [List.map_cons, hy, seqOpt_cons_some, hout]
    rfl

theorem seqOpt_map_zip {a b : Type} (f : b → b → b) :
    ∀ (l : List a) (g h : a → Option b) (u v : List b),
      seqOpt (l.map g) = some u → seqOpt (l.map h) = some v →
      seqOpt (l.map (fun x =>
        match g x, h x with
        | some p, some q => some (f p q)
        | _, _ => none)) = some (List.zipWith f u v) := by
  intro l
  induction l with
  | nil =>
    intro g h u v hu hv
    simp only [List.map_nil, seqOpt_nil] at hu hv ⊢
    cases hu
    cases hv
    rfl
  | cons x xs ih =>
    intro g h u v hu hv
    rw [List.map_cons] at hu hv
    cases hgx : g x with
    | none => rw [hgx, seqOpt_cons_none] at hu; cases hu
    | some p =>
      rw [hgx, seqOpt_cons_some] at hu
      cases hxs : seqOpt (xs.map g) with
      | none => rw [hxs] at hu; cases hu
      | some u2 =>
        rw [hxs] at hu
        have hu2 : u = p :: u2 := by
          have := hu
          simp at this
          exact this.symm
        subst hu2
        cases hhx : h x with
        | none => rw [hhx, seqOpt_cons_none] at hv; cases hv
        | some q =>
          rw [hhx, seqOpt_cons_some] at hv
          cases hys : seqOpt (xs.map h) with
          | none => rw [hys] at hv; cases hv
          | some v2 =>
            rw [hys] at hv
            have hv2 : v = q :: v2 := by
              have := hv
              simp at this
              exact this.symm
            subst hv2
            rw [List.map_cons, List.zipWith_cons_cons]
            have hbody : (match g x, h x with
                | some p, some q => some (f p q)
                | _, _ => none) = some (f p q) := by
              rw [hgx, hhx]
            rw [hbody, seqOpt_cons_some, ih g h u2 v2 hxs hys]
            rfl

-- ### Lemmas about broadcast reads and the row-major enumeration

theorem idxList_cons (d : Nat) (rest : List Nat) :
    idxList (d :: rest) = (List.range d).flatMap (fun i => (idxList rest).map (fun is => i :: is)) := rfl

theorem bcastIdx_cons_cons (d : Nat) (ss : List Nat) (i : Nat) (is : List Nat) :
    bcastIdx (d :: ss) (i :: is) =
      if (d :: ss).length = is.length + 1 then (if d = 1 then 0 else i) :: bcastIdx ss is
      else bcastIdx (d :: ss) is := rfl

theorem broadcastable_cons_cons (s0 : Nat) (sR : List Nat) (d0 : Nat) (dstR : List Nat) :
    broadcastable (s0 :: sR) (d0 :: dstR) =
      if (s0 :: sR).length = dstR.length + 1 then ((s0 == d0) || (s0 == 1)) && broadcastable sR dstR
      else broadcastable (s0 :: sR) dstR := rfl

theorem bcastIdx_self : ∀ {s idx : List Nat}, ValidIdx s idx → bcastIdx s idx = idx := by
  intro s idx h
  induction h with
  | nil => rfl
  | cons hi hv ih =>
    rename_i d ss i is
    have hlen : is.length = ss.length := validIdx_length hv
    rw [bcastIdx_cons_cons, if_pos (by simp [hlen]), ih]
    by_cases hd : d = 1
    · subst hd
      have hi0 : i = 0 := by omega
      simp [hi0]
    · simp [hd]

theorem seqOpt_enum_get {F : Type} :
    ∀ (s : List Nat) (data : List F), data.length = s.prod →
      seqOpt ((idxList s).map (fun idx => data[flatIndex s idx]?)) = some data := by
  intro s
  induction s with
  | nil =>
    intro data hlen
    obtain ⟨v, hv⟩ := List.length_eq_one.mp (by simpa using hlen)
    subst hv
    rfl
  | cons d rest ih =>
    intro data hlen
    rw [List.prod_cons] at hlen
    have aux : ∀ n, n ≤ d →
        seqOpt (((List.range n).flatMap (fun i => (idxList rest).map (fun is => i :: is))).map
          (fun idx => data[flatIndex (d :: rest) idx]?)) =
        some (data.take (n * rest.prod)) := by
      intro n
      induction n with
      | zero =>
        intro _
        simp [seqOpt_nil]
      | succ m ihm =>
        intro hm
        have hmm : (m + 1) * rest.prod = m * rest.prod + rest.prod := Nat.succ_mul _ _
        have hle : (m + 1) * rest.prod ≤ d * rest.prod := Nat.mul_le_mul_right _ (by omega)
        rw [List.range_succ, List.flatMap_append, List.map_append]
        have h1 := ihm (by omega)
        have h2 : seqOpt ((List.flatMap [m] (fun i => (idxList rest).map (fun is => i :: is))).map
            (fun idx => data[flatIndex (d :: rest) idx]?)) =
            some ((data.drop (m * rest.prod)).take rest.prod) := by
          rw [List.flatMap_cons, List.flatMap_nil, List.append_nil, List.map_map]
          have hcomp : ((fun idx => data[flatIndex (d :: rest) idx]?) ∘ (fun is => m :: is)) =
              (fun is => data[m * rest.prod + flatIndex rest is]?) := rfl
          rw [hcomp]
          have hchlen : ((data.drop (m * rest.prod)).take rest.prod).length = rest.prod := by
            simp only [List.length_take, List.length_drop]
            omega
          have hcongr : List.map (fun is => data[m * rest.prod + flatIndex rest is]?) (idxList rest)
              = List.map (fun is => ((data.drop (m * rest.prod)).take rest.prod)[flatIndex rest is]?)
                (idxList rest) := by
            apply List.map_congr_left
            intro is hmem
            have hlt := flatIndex_lt_prod (mem_idxList_valid hmem)
            rw [List.getElem?_take, if_pos hlt, List.getElem?_drop]
          rw [hcongr, ih ((data.drop (m * rest.prod)).take rest.prod) hchlen]
        refine (seqOpt_append_some _ _ _ _ h1 h2).trans ?_
        rw [hmm, List.take_add]
    rw [idxList_cons, aux d (Nat.le_refl d), List.take_of_length_le (by omega)]

theorem readAt_self {F : Type} (a : Arr F) (hwf : a.wf) :
    seqOpt ((idxList a.shape).map (fun idx => readAt a idx)) = some a.data := by
  have hcg : List.map (fun idx => readAt a idx) (idxList a.shape)
      = List.map (fun idx => a.data[flatIndex a.shape idx]?) (idxList a.shape) := by
    apply List.map_congr_left
    intro idx hmem
    rw [readAt, bcastIdx_self (mem_idxList_valid hmem)]
  rw [hcg, seqOpt_enum_get a.shape a.data hwf]

theorem broadcastable_nil : ∀ (dst : List Nat), broadcastable [] dst = true := by
  intro dst
  induction dst with
  | nil => rfl
  | cons d0 dstR ih =>
    have hstep : broadcastable ([] : List Nat) (d0 :: dstR) =
        if ([] : List Nat).length = dstR.length + 1 then false else broadcastable [] dstR := rfl
    rw [hstep, if_neg (by simp), ih]

theorem broadcastable_len : ∀ (dst src : List Nat), broadcastable src dst = true →
    src.length ≤ dst.length := by
  intro dst
  induction dst with
  | nil =>
    intro src h
    rw [broadcastable] at h
    simp [List.isEmpty_iff.mp h]
  | cons d0 dstR ih =>
    intro src h
    by_cases hl : src.length = dstR.length + 1
    · simp [hl]
    · cases src with
      | nil => simp
      | cons s0 sR =>
        rw [broadcastable_cons_cons, if_neg hl] at h
        have := ih (s0 :: sR) h
        simp at this ⊢
        omega

theorem broadcastable_self : ∀ (s : List Nat), broadcastable s s = true := by
  intro s
  induction s with
  | nil => rfl
  | cons d rest ih =>
    rw [broadcastable_cons_cons, if_pos (by simp)]
    simp [ih]

theorem bcastIdx_valid : ∀ {dst idx : List Nat}, ValidIdx dst idx →
    ∀ (src : List Nat), broadcastable src dst = true → ValidIdx src (bcastIdx src idx) := by
  intro dst idx h
  induction h with
  | nil =>
    intro src hbc
    rw [broadcastable] at hbc
    rw [List.isEmpty_iff.mp hbc]
    exact .nil
  | cons hi hv ih =>
    rename_i d0 dstR i0 idxR
    intro src hbc
    have hlen : idxR.length = dstR.length := validIdx_length hv
    by_cases hl : src.length = dstR.length + 1
    · cases src with
      | nil => simp at hl
      | cons s0 sR =>
        rw [broadcastable_cons_cons, if_pos (by simpa using hl)] at hbc
        rw [Bool.and_eq_true] at hbc
        obtain ⟨hc, hb2⟩ := hbc
        rw [bcastIdx_cons_cons, if_pos (by simp [hlen]; simpa using hl)]
        have hhead : (if s0 = 1 then 0 else i0) < s0 := by
          rcases Bool.or_eq_true _ _ |>.mp hc with hc1 | hc1
          · have : s0 = d0 := by simpa using hc1
            subst this
            by_cases h1 : s0 = 1
            · simp [h1]
            · simp [h1]
              omega
          · have : s0 = 1 := by simpa using hc1
            simp [this]
        exact .cons hhead (ih sR hb2)
    · have hbc2 : broadcastable src dstR = true := by
        cases src with
        | nil => exact broadcastable_nil dstR
        | cons s0 sR =>
          rw [broadcastable_cons_cons, if_neg hl] at hbc
          exact hbc
      have hl2 : ¬ src.length = idxR.length + 1 := by rw [hlen]; exact hl
      cases src with
      | nil => exact ih [] hbc2
      | cons s0 sR =>
        rw [bcastIdx_cons_cons, if_neg (by simpa using hl2)]
        exact ih (s0 :: sR) hbc2

theorem broadcastData_some {F : Type} (src : List Nat) (data : List F) (dst : List Nat)
    (hbc : broadcastable src dst = true) (hlen : data.length = src.prod) :
    ∃ out, broadcastData src data dst = some out ∧ out.length = dst.prod := by
  rw [broadcastData, if_pos hbc]
  have hall : ∀ idx ∈ idxList dst, ∃ y, data[flatIndex src (bcastIdx src idx)]? = some y := by
    intro idx hmem
    have hvalid := bcastIdx_valid (mem_idxList_valid hmem) src hbc
    have hlt := flatIndex_lt_prod hvalid
    exact ⟨_, List.getElem?_eq_getElem (by omega)⟩
  obtain ⟨out, hout, holen⟩ := seqOpt_some_of_forall (idxList dst) _ hall
  exact ⟨out, hout, by rw [holen, idxList_length]⟩

theorem broadcastData_self {F : Type} (s : List Nat) (data : List F)
    (hlen : data.length = s.prod) : broadcastData s data s = some data := by
  rw [broadcastData, if_pos (broadcastable_self s)]
  have hcg : List.map (fun idx => data[flatIndex s (bcastIdx s idx)]?) (idxList s)
      = List.map (fun idx => data[flatIndex s idx]?) (idxList s) := by
    apply List.map_congr_left
    intro idx hmem
    rw [bcastIdx_self (mem_idxList_valid hmem)]
  rw [hcg, seqOpt_enum_get s data hlen]

-- ### Lemmas about the specification-side broadcast join

theorem npJoinLe_nil_cons (t0 : Nat) (tR : List Nat) :
    npJoinLe [] (t0 :: tR) =
      if ([] : List Nat).length = tR.length + 1 then none
      else (npJoinLe [] tR).map (fun r => t0 :: r) := rfl

theorem npJoinLe_cons_cons (s0 : Nat) (sR : List Nat) (t0 : Nat) (tR : List Nat) :
    npJoinLe (s0 :: sR) (t0 :: tR) =
      if (s0 :: sR).length = tR.length + 1 then
        (if s0 = t0 ∨ s0 = 1 ∨ t0 = 1 then
          (npJoinLe sR tR).map (fun r => (if s0 = 1 then t0 else s0) :: r)
        else none)
      else (npJoinLe (s0 :: sR) tR).map (fun r => t0 :: r) := rfl

theorem npJoinLe_of_bcastable : ∀ (dst src : List Nat), broadcastable src dst = true →
    npJoinLe src dst = some dst := by
  intro dst
  induction dst with
  | nil =>
    intro src h
    rw [broadcastable] at h
    rw [List.isEmpty_iff.mp h]
    rfl
  | cons t0 tR ih =>
    intro src h
    by_cases hl : src.length = tR.length + 1
    · cases src with
      | nil => simp at hl
      | cons s0 sR =>
        rw [broadcastable_cons_cons, if_pos (by simpa using hl)] at h
        rw [Bool.and_eq_true] at h
        obtain ⟨hc, hb2⟩ := h
        have hcond : s0 = t0 ∨ s0 = 1 ∨ t0 = 1 := by
          rcases Bool.or_eq_true _ _ |>.mp hc with hc1 | hc1
          · exact Or.inl (by simpa using hc1)
          · exact Or.inr (Or.inl (by simpa using hc1))
        rw [npJoinLe_cons_cons, if_pos (by simpa using hl), if_pos hcond, ih sR hb2]
        have hval : (if s0 = 1 then t0 else s0) = t0 := by
          rcases Bool.or_eq_true _ _ |>.mp hc with hc1 | hc1
          · have he : s0 = t0 := by simpa using hc1
            by_cases h1 : s0 = 1
            · simp [h1, ← he]
            · simp [h1, he]
          · have he : s0 = 1 := by simpa using hc1
            simp [he]
        rw [hval]
        rfl
    · have hb2 : broadcastable src tR = true := by
        cases src with
        | nil => exact broadcastable_nil tR
        | cons s0 sR =>
          rw [broadcastable_cons_cons, if_neg hl] at h
          exact h
      cases src with
      | nil =>
        rw [npJoinLe_nil_cons, if_neg (by simp), ih [] hb2]
        rfl
      | cons s0 sR =>
        rw [npJoinLe_cons_cons, if_neg hl, ih (s0 :: sR) hb2]
        rfl

theorem npJoinLe_flip_of_bcastable : ∀ (dst src : List Nat), src.length = dst.length →
    broadcastable src dst = true → npJoinLe dst src = some dst := by
  intro dst
  induction dst with
  | nil =>
    intro src hlen _
    have : src = [] := List.length_eq_zero.mp (by simpa using hlen)
    subst this
    rfl
  | cons t0 tR ih =>
    intro src hlen h
    cases src with
    | nil => simp at hlen
    | cons s0 sR =>
      have hlen2 : sR.length = tR.length := by simpa using hlen
      rw [broadcastable_cons_cons, if_pos (by simp [hlen2])] at h
      rw [Bool.and_eq_true] at h
      obtain ⟨hc, hb2⟩ := h
      have hcond : t0 = s0 ∨ t0 = 1 ∨ s0 = 1 := by
        rcases Bool.or_eq_true _ _ |>.mp hc with hc1 | hc1
        · refine Or.inl ?_
          have he : s0 = t0 := by simpa using hc1
          exact he.symm
        · exact Or.inr (Or.inr (by simpa using hc1))
      rw [npJoinLe_cons_cons, if_pos (by simp [hlen2]), if_pos hcond, ih sR hlen2 hb2]
      have hval : (if t0 = 1 then s0 else t0) = t0 := by
        rcases Bool.or_eq_true _ _ |>.mp hc with hc1 | hc1
        · have he : s0 = t0 := by simpa using hc1
          by_cases h1 : t0 = 1
          · simp [h1, he]
          · simp [h1]
        · have he : s0 = 1 := by simpa using hc1
          by_cases h1 : t0 = 1
          · simp [h1, he]
          · simp [h1]
      rw [hval]
      rfl

theorem npJoin_of_bcastable (src dst : List Nat) (h : broadcastable src dst = true) :
    npJoin src dst = some dst ∧ npJoin dst src = some dst := by
  have hlen := broadcastable_len dst src h
  constructor
  · rw [npJoin, if_pos hlen]
    exact npJoinLe_of_bcastable dst src h
  · by_cases h2 : dst.length ≤ src.length
    · rw [npJoin, if_pos h2]
      exact npJoinLe_flip_of_bcastable dst src (Nat.le_antisymm hlen h2) h
    · rw [npJoin, if_neg h2]
      exact npJoinLe_of_bcastable dst src h

theorem npElementwise_eq {F : Type} (f : F → F → F) (a b : Arr F) :
    npElementwise f a b =
      match npJoin a.shape b.shape with
      | none => none
      | some sh =>
        (seqOpt ((idxList sh).map (fun idx =>
          match readAt a idx, readAt b idx with
          | some u, some v => some (f u v)
          | _, _ => none))).map (fun d => (⟨sh, d⟩ : Arr F)) := rfl

theorem binOpForward_np_agree {F : Type} (f : F → F → F) (hc : ∀ a b, f a b = f b a)
    (x0 x1 : Arr F) (h0 : x0.wf) (h1 : x1.wf)
    (hs0 : scalarLike x0.shape = false) (hs1 : scalarLike x1.shape = false)
    (hbc : (if x1.shape.prod < x0.shape.prod then broadcastable x1.shape x0.shape
      else broadcastable x0.shape x1.shape) = true) :
    ∃ r, binOpForward f x0 x1 = .owned r ∧ npElementwise f x0 x1 = some r := by
  rw [binOpForward]
  simp only [hs0, hs1, Bool.false_and, Bool.and_false, Bool.not_false, Bool.and_self,
    Bool.false_eq_true, if_false, if_true]
  by_cases hlt : x1.shape.prod < x0.shape.prod
  · rw [if_pos hlt] at hbc
    rw [if_pos hlt]
    have hne : ¬ x0.shape = x1.shape := by
      intro he
      rw [he] at hlt
      exact lt_irrefl _ hlt
    obtain ⟨bd, hbd, _⟩ := broadcastData_some x1.shape x1.data x0.shape hbc h1
    obtain ⟨_, hj2⟩ := npJoin_of_bcastable x1.shape x0.shape hbc
    rw [ndBinOp, if_neg hne, hbd]
    have hbd2 : seqOpt ((idxList x0.shape).map (fun idx => readAt x1 idx)) = some bd := by
      have hx := hbd
      rw [broadcastData, if_pos hbc] at hx
      exact hx
    have hid0 := readAt_self x0 h0
    have hz : seqOpt ((idxList x0.shape).map (fun idx =>
        match readAt x0 idx, readAt x1 idx with
        | some u, some v => some (f u v)
        | _, _ => none)) = some (List.zipWith f x0.data bd) :=
      seqOpt_map_zip f (idxList x0.shape) _ _ x0.data bd hid0 hbd2
    have hnp : npElementwise f x0 x1 = some ⟨x0.shape, List.zipWith f x0.data bd⟩ := by
      rw [npElementwise_eq, hj2]
      exact congrArg (Option.map (fun d => (⟨x0.shape, d⟩ : Arr F))) hz
    exact ⟨⟨x0.shape, List.zipWith f x0.data bd⟩, rfl, hnp⟩
  · rw [if_neg hlt] at hbc
    rw [if_neg hlt]
    obtain ⟨hj1, _⟩ := npJoin_of_bcastable x0.shape x1.shape hbc
    by_cases he : x1.shape = x0.shape
    · rw [ndBinOp, if_pos he]
      have hid0 := readAt_self x0 h0
      have hid1 := readAt_self x1 h1
      rw [← he] at hid0
      have hz : seqOpt ((idxList x1.shape).map (fun idx =>
          match readAt x0 idx, readAt x1 idx with
          | some u, some v => some (f u v)
          | _, _ => none)) = some (List.zipWith f x0.data x1.data) :=
        seqOpt_map_zip f (idxList x1.shape) _ _ x0.data x1.data hid0 hid1
      have hnp : npElementwise f x0 x1 = some ⟨x1.shape, List.zipWith f x0.data x1.data⟩ := by
        rw [npElementwise_eq, hj1]
        exact congrArg (Option.map (fun d => (⟨x1.shape, d⟩ : Arr F))) hz
      refine ⟨⟨x1.shape, List.zipWith f x1.data x0.data⟩, rfl, ?_⟩
      rw [hnp, List.zipWith_comm_of_comm f hc x0.data x1.data]
    · rw [ndBinOp, if_neg he]
      obtain ⟨bd0, hbd0, _⟩ := broadcastData_some x0.shape x0.data x1.shape hbc h0
      rw [hbd0]
      have hbd02 : seqOpt ((idxList x1.shape).map (fun idx => readAt x0 idx)) = some bd0 := by
        have hx := hbd0
        rw [broadcastData, if_pos hbc] at hx
        exact hx
      have hid1 := readAt_self x1 h1
      have hz : seqOpt ((idxList x1.shape).map (fun idx =>
          match readAt x0 idx, readAt x1 idx with
          | some u, some v => some (f u v)
          | _, _ => none)) = some (List.zipWith f bd0 x1.data) :=
        seqOpt_map_zip f (idxList x1.shape) _ _ bd0 x1.data hbd02 hid1
      have hnp : npElementwise f x0 x1 = some ⟨x1.shape, List.zipWith f bd0 x1.data⟩ := by
        rw [npElementwise_eq, hj1]
        exact congrArg (Option.map (fun d => (⟨x1.shape, d⟩ : Arr F))) hz
      refine ⟨⟨x1.shape, List.zipWith f x1.data bd0⟩, rfl, ?_⟩
      rw [hnp, List.zipWith_comm_of_comm f hc bd0 x1.data]

-- ### Lemmas about the loop of PreprocessBinOpGrad::compute

theorem shapeRemove_some {a : Type} :
    ∀ (n : Nat) (l : List a), n < l.length →
      ∃ l2, shapeRemove n l = some l2 ∧ l2.length + 1 = l.length := by
  intro n
  induction n with
  | zero =>
    intro l h
    cases l with
    | nil => simp at h
    | cons x xs => exact ⟨xs, rfl, rfl⟩
  | succ m ih =>
    intro l h
    cases l with
    | nil => simp at h
    | cons x xs =>
      have hm : m < xs.length := Nat.lt_of_succ_lt_succ (by simpa using h)
      obtain ⟨l2, h1, h2⟩ := ih xs hm
      refine ⟨x :: l2, ?_, ?_⟩
      · simp [shapeRemove, h1]
      · simp [Nat.succ_eq_add_one]
        omega

theorem shapeInsert_some {a : Type} (v : a) :
    ∀ (n : Nat) (l : List a), n ≤ l.length →
      ∃ l2, shapeInsert n v l = some l2 ∧ l2.length = l.length + 1 := by
  intro n
  induction n with
  | zero =>
    intro l _
    exact ⟨v :: l, rfl, by simp⟩
  | succ m ih =>
    intro l h
    cases l with
    | nil => simp at h
    | cons x xs =>
      have hm : m ≤ xs.length := Nat.le_of_succ_le_succ (by simpa using h)
      obtain ⟨l2, h1, h2⟩ := ih xs hm
      refine ⟨x :: l2, ?_, ?_⟩
      · simp [shapeInsert, h1]
      · simp [h2]

theorem foldAxis_some {F : Type} (a : Arr F) (ax : Nat) (init : F) (f : F → F → F)
    (h : ax < a.shape.length) :
    ∃ b, foldAxis a ax init f = some b ∧ b.shape.length + 1 = a.shape.length := by
  obtain ⟨s2, h1, h2⟩ := shapeRemove_some ax a.shape h
  exact ⟨⟨s2, foldAxisData (a.shape.take ax).prod (a.shape.getD ax 1)
    (a.shape.drop (ax+1)).prod init f a.data⟩, by simp [foldAxis, h1], h2⟩

theorem mem_zip_same {a : Type} {p : a × a} :
    ∀ {l : List a}, p ∈ l.zip l → p.1 = p.2 := by
  intro l
  induction l with
  | nil => intro h; simp at h
  | cons x xs ih =>
    intro h
    rw [List.zip_cons_cons] at h
    rcases List.mem_cons.mp h with h | h
    · subst h; rfl
    · exact ih h

theorem reduceLoop_fail_of_bad_pair {F : Type} [Zero F] [Add F] (gy : Arr F) :
    ∀ (r : List (Nat × Nat)) (i : Nat) (folded : Option (Arr F)),
      (∀ a, folded = some a → a.shape.length = gy.shape.length) →
      i + r.length ≤ gy.shape.length →
      (∃ p ∈ r, p.1 < p.2 ∧ p.1 ≠ 1) →
      reduceLoop gy false i r folded = .fail .incorrectGradientShape := by
  intro r
  induction r with
  | nil =>
    intro i folded _ _ hex
    simp at hex
  | cons hd tl ih =>
    intro i folded hinv hlen hex
    obtain ⟨xa, ga⟩ := hd
    by_cases hlt : xa < ga
    · by_cases h1 : xa = 1
      · subst h1
        have hsrc : (folded.getD gy).shape.length = gy.shape.length := by
          cases folded with
          | none => rfl
          | some a => exact hinv a rfl
        have hi : i < (folded.getD gy).shape.length := by
          rw [hsrc]
          simp at hlen
          omega
        obtain ⟨b, hb, hblen⟩ :=
          foldAxis_some (folded.getD gy) i (0 : F) (fun x y => x + y) hi
        have hins : i ≤ b.shape.length := by omega
        obtain ⟨s2, hs2, hs2len⟩ := shapeInsert_some 1 i b.shape hins
        rw [reduceLoop]
        simp only [hlt, if_true, if_pos rfl, Bool.false_eq_true, if_false]
        simp only [hb, hs2]
        apply ih (i+1) (some ⟨s2, b.data⟩)
        · intro a ha
          cases ha
          simp only [hs2len]
          omega
        · simp at hlen
          omega
        · obtain ⟨p, hp, hplt, hpne⟩ := hex
          rcases List.mem_cons.mp hp with hp | hp
          · exfalso; apply hpne; rw [hp]
          · exact ⟨p, hp, hplt, hpne⟩
      · rw [reduceLoop]
        simp [hlt, h1]
    · rw [reduceLoop]
      simp only [hlt, if_false]
      apply ih (i+1) folded hinv
      · simp at hlen
        omega
      · obtain ⟨p, hp, hplt, hpne⟩ := hex
        rcases List.mem_cons.mp hp with hp | hp
        · exfalso; apply hlt; rw [hp] at hplt; exact hplt
        · exact ⟨p, hp, hplt, hpne⟩

-- ### Lemmas about axis-0 folding and the scalar-target reduction path

theorem sum_zipWith_add {F : Type} [AddCommMonoid F] :
    ∀ (l1 l2 : List F), l1.length = l2.length →
      (List.zipWith (fun x y => x + y) l1 l2).sum = l1.sum + l2.sum := by
  intro l1
  induction l1 with
  | nil =>
    intro l2 h
    have : l2 = [] := List.length_eq_zero.mp (by simpa using h.symm)
    simp [this]
  | cons x xs ih =>
    intro l2 h
    cases l2 with
    | nil => simp at h
    | cons y ys =>
      have hxy : xs.length = ys.length := by simpa using h
      simp only [List.zipWith_cons_cons, List.sum_cons]
      rw [ih ys hxy]
      exact add_add_add_comm x y xs.sum ys.sum

theorem axis0Fold_length {F : Type} (inner : Nat) (f : F → F → F) :
    ∀ (d : Nat) (acc data : List F), acc.length = inner → d * inner ≤ data.length →
      (axis0Fold inner f acc d data).length = inner := by
  intro d
  induction d with
  | zero =>
    intro acc data hacc _
    simpa [axis0Fold] using hacc
  | succ m ih =>
    intro acc data hacc hlen
    have hsm : (m+1) * inner = m * inner + inner := Nat.succ_mul m inner
    have hin : inner ≤ data.length := by omega
    rw [axis0Fold]
    apply ih
    · simp [List.length_zipWith, hacc, List.length_take]
      omega
    · simp [List.length_drop]
      omega

theorem axis0Fold_sum {F : Type} [AddCommMonoid F] (inner : Nat) :
    ∀ (d : Nat) (acc data : List F), acc.length = inner → data.length = d * inner →
      (axis0Fold inner (fun x y => x + y) acc d data).sum = acc.sum + data.sum := by
  intro d
  induction d with
  | zero =>
    intro acc data _ hlen
    have : data = [] := List.length_eq_zero.mp (by simpa using hlen)
    simp [axis0Fold, this]
  | succ m ih =>
    intro acc data hacc hlen
    have hsm : (m+1) * inner = m * inner + inner := Nat.succ_mul m inner
    have hin : inner ≤ data.length := by omega
    rw [axis0Fold]
    rw [ih (List.zipWith (fun x y => x + y) acc (data.take inner)) (data.drop inner)
      (by simp [List.length_zipWith, hacc, List.length_take]; omega)
      (by simp [List.length_drop, hlen]; omega)]
    rw [sum_zipWith_add acc (data.take inner) (by simp [List.length_take]; omega)]
    rw [add_assoc, List.sum_take_add_sum_drop]

theorem foldAxis_zero_eq {F : Type} (a : Arr F) (d : Nat) (rest : List Nat)
    (init : F) (f : F → F → F) (h : a.shape = d :: rest) (hwf : a.wf) :
    foldAxis a 0 init f =
      some ⟨rest, axis0Fold rest.prod f (List.replicate rest.prod init) d a.data⟩ := by
  have hlen : a.data.length = d * rest.prod := by
    have := hwf
    rw [Arr.wf, h, List.prod_cons] at this
    exact this
  have hr1 : List.range 1 = [0] := rfl
  rw [foldAxis, h]
  simp only [shapeRemove]
  rw [foldAxisData]
  simp only [List.take_zero, List.prod_nil, hr1, List.flatMap_cons,
    List.flatMap_nil, List.append_nil, List.getD_cons_zero, List.drop_succ_cons,
    List.drop_zero, Nat.zero_mul]
  rw [List.take_of_length_le (by omega)]

theorem foldAxis0_step {F : Type} [AddCommMonoid F] (a : Arr F) (d : Nat) (rest : List Nat)
    (h : a.shape = d :: rest) (hwf : a.wf) :
    ∃ b, foldAxis a 0 (0 : F) (fun x y => x + y) = some b ∧
      b.shape = rest ∧ b.wf ∧ b.data.sum = a.data.sum := by
  have hlen : a.data.length = d * rest.prod := by
    have := hwf
    rw [Arr.wf, h, List.prod_cons] at this
    exact this
  refine ⟨⟨rest, axis0Fold rest.prod (fun x y => x + y)
    (List.replicate rest.prod 0) d a.data⟩, foldAxis_zero_eq a d rest 0 _ h hwf, rfl, ?_, ?_⟩
  · show (axis0Fold rest.prod (fun x y => x + y)
      (List.replicate rest.prod (0 : F)) d a.data).length = (rest : List Nat).prod
    apply axis0Fold_length
    · simp
    · omega
  · show (axis0Fold rest.prod (fun x y => x + y)
      (List.replicate rest.prod (0 : F)) d a.data).sum = a.data.sum
    rw [axis0Fold_sum rest.prod d _ _ (by simp) hlen]
    simp

theorem zip_replicate_one :
    ∀ (l : List Nat), (List.replicate l.length 1).zip l = l.map (fun d => ((1 : Nat), d)) := by
  intro l
  induction l with
  | nil => rfl
  | cons d rest ih =>
    simp only [List.length_cons, List.replicate_succ, List.zip_cons_cons, List.map_cons]
    rw [ih]

theorem reduceLoop_scalar_sum {F : Type} [AddCommMonoid F] (gy : Arr F) :
    ∀ (s : List Nat) (i : Nat) (A : Arr F), A.wf → A.shape = s → (∀ d ∈ s, 2 ≤ d) →
      reduceLoop gy true i (s.map (fun d => ((1 : Nat), d))) (some A) =
        .cont (some ⟨[], [A.data.sum]⟩) := by
  intro s
  induction s with
  | nil =>
    intro i A hwf hsh _
    have hlen : A.data.length = 1 := by
      have := hwf
      rw [Arr.wf, hsh] at this
      simpa using this
    obtain ⟨v, hv⟩ := List.length_eq_one.mp hlen
    rw [List.map_nil, reduceLoop]
    cases A
    simp only at hsh hv
    subst hsh
    subst hv
    simp
  | cons d rest ih =>
    intro i A hwf hsh hd
    have h2 : 2 ≤ d := hd d (by simp)
    obtain ⟨b, hb, hbsh, hbwf, hbsum⟩ := foldAxis0_step A d rest hsh hwf
    rw [List.map_cons, reduceLoop]
    simp only [show (1 : Nat) < d by omega, if_true, if_pos rfl]
    simp only [Option.getD_some, hb]
    rw [ih (i+1) b hbwf hbsh (fun x hx => hd x (by simp [hx]))]
    rw [hbsum]

-- ### Claim theorems: concrete evaluations and definitional facts

/-- Claim C1 (code bug evaluation): the spec example reduce(gy, (4,)) for gy of
shape (3,4) filled with 1.0 does not return a length-4 array of 3.0; the loop
zips the axes from the leading side, so the single pair (4,3) triggers no
fold, folded stays None, and folded.unwrap() panics. -/
theorem c1_reduce_rank_mismatch_unwrap_panic :
    reduceCompute (F := Int) ⟨[3,4], List.replicate 12 1⟩ [4] = .panic .unwrapNone := by
  decide

/-- Claim C2 (counterexample): a reduction call whose target axis size 2
exceeds the gradient axis size 1 does not fail with the gradient-shape
error; it silently proceeds and returns a result (of shape (1,1), which does
not even match the target shape (1,2)). -/
theorem c2_target_exceeds_gradient_silently_proceeds :
    reduceCompute (F := Int) ⟨[5,1], [1,1,1,1,1]⟩ [1,2] = .owned ⟨[1,1], [5]⟩ := by
  decide

/-- Claim C3 (code bug evaluation): the gradient step of
PreprocessBinOpGradGrad registers a Reducer node over (input 0, output_grad),
not over (output_grad, input 1) as claimed: with symbolic inputs 10 and 11 and
incoming second-order gradient 12, the built Reducer has inputs [10, 12],
which differs from the claimed [12, 11]; the second entry of the registered
input-gradient list is the non-differentiable marker. -/
theorem c3_gradgrad_grad_wiring :
    preprocessBinOpGradGrad_grad (⟨10, 11, 12⟩ : GradCtx Nat) =
      [some ⟨.preBinGrad, [10, 12]⟩, none] ∧
    [some (⟨.preBinGrad, [10, 12]⟩ : BuiltNode Nat), none] ≠
      [some ⟨.preBinGrad, [12, 11]⟩, none] := by
  constructor
  · rfl
  · decide

/-- Claim C4 (code bug evaluation): expanding a true-scalar gradient to target
shape (2,3) does not return an array of shape (2,3); the loop passes the axis
size 2 of target_shape as the insertion position into the rank-0 shape, and
the insertion panics. -/
theorem c4_scalar_expand_insert_panic :
    expandCompute (F := Int) ⟨[], [1]⟩ [2,3] = .panic .insertOOB := by
  decide

/-- Claim C5 (counterexample): with x_shape = [] the Reducer does not sum over
all axes into a single value for every gy: for gy of shape (1,3), the
scalar path always folds axis 0, which here squashes the size-1 axis instead,
and the result has shape (3,), not a single value. -/
theorem c5_scalar_target_nonscalar_result :
    reduceCompute (F := Int) ⟨[1,3], [1,1,1]⟩ [] = .owned ⟨[3], [1,1,1]⟩ ∧
    ([3] : List Nat) ≠ [] := by
  constructor
  · decide
  · decide

/-- Claim C6: when gy.shape() equals x_shape, the Reducer passes gy through
unchanged as a view, with no transformation. -/
theorem c6_reduce_identity_view {F : Type} [Zero F] [Add F] (gy : Arr F) (xShape : List Nat)
    (h : xShape = gy.shape) : reduceCompute gy xShape = .view gy := by
  simp [reduceCompute, h]

/-- Witness for C6 at a concrete input. -/
theorem c6_reduce_identity_view_witness :
    reduceCompute (F := Int) ⟨[2,2], [1,2,3,4]⟩ [2,2] = .view ⟨[2,2], [1,2,3,4]⟩ :=
  c6_reduce_identity_view ⟨[2,2], [1,2,3,4]⟩ [2,2] rfl

/-- Claim C7 (counterexample): for the broadcast-compatible non-scalar shapes
(1,4) and (3,1), the add forward evaluator does not produce the standard
broadcast elementwise sum: the underlying ndarray operator can only broadcast
its right operand into the shape of its left operand, so the evaluation
panics, while the standard broadcast sum is the all-2 array of shape (3,4). -/
theorem c7_forward_not_standard_broadcast :
    add_forward (F := Int) ⟨[1,4], [1,1,1,1]⟩ ⟨[3,1], [1,1,1]⟩ = .panic .broadcastFail ∧
    npElementwise (fun a b => a + b) (⟨[1,4], [1,1,1,1]⟩ : Arr Int) ⟨[3,1], [1,1,1]⟩ =
      some ⟨[3,4], List.replicate 12 2⟩ := by
  constructor
  · decide
  · decide

/-- Claim C8 (counterexample): an operand of shape [0] does take the scalar
fast path in add: the shared forward template counts [0] as scalar, so the
fast path is entered and its empty-index read panics, where the non-scalar
path would instead fail with a broadcast error. -/
theorem c8_add_takes_zero_sentinel_fast_path :
    add_forward (F := Int) ⟨[0], []⟩ ⟨[2], [1,2]⟩ = .panic .indexOOB ∧
    ndBinOp (fun a b => a + b) (⟨[0], []⟩ : Arr Int) ⟨[2], [1,2]⟩ = .panic .broadcastFail := by
  constructor
  · decide
  · decide

/-- Claim C8 (amended): divide treats [0] as a scalar sentinel for its first
operand, and the shared add/multiply forward template also treats [0] as
scalar (entering the fast path, whose read then fails); only subtract
restricts the scalar fast path to the empty shape, so a [0]-shaped first
operand of subtract runs the plain ndarray subtraction. -/
theorem c8_scalar_recognition_asymmetry {F : Type} [Add F] [Mul F] [Sub F]
    (x0 x1 : Arr F) (h0 : x0.shape = [0]) :
    (scalarLike x1.shape = false →
      add_forward x0 x1 = .panic .indexOOB ∧ mul_forward x0 x1 = .panic .indexOOB) ∧
    sub_compute x0 x1 = ndBinOp (fun a b => a - b) x0 x1 := by
  have hs0 : scalarLike [0] = true := rfl
  constructor
  · intro h1
    constructor
    · simp [add_forward, binOpForward, readEmpty, h0, h1, hs0]
    · simp [mul_forward, binOpForward, readEmpty, h0, h1, hs0]
  · simp [sub_compute, h0]

/-- Witness for the amended C8 at a concrete input. -/
theorem c8_scalar_recognition_asymmetry_witness :
    add_forward (F := Int) ⟨[0], []⟩ ⟨[3], [5,6,7]⟩ = .panic .indexOOB ∧
    mul_forward (F := Int) ⟨[0], []⟩ ⟨[3], [5,6,7]⟩ = .panic .indexOOB ∧
    sub_compute (F := Int) ⟨[0], []⟩ ⟨[3], [5,6,7]⟩ =
      ndBinOp (fun a b => a - b) (⟨[0], []⟩ : Arr Int) ⟨[3], [5,6,7]⟩ := by
  have h := c8_scalar_recognition_asymmetry (F := Int) ⟨[0], []⟩ ⟨[3], [5,6,7]⟩ rfl
  exact ⟨(h.1 (by decide)).1, (h.1 (by decide)).2, h.2⟩

/-- Claim C9 (counterexample): a second operand of shape [1] is treated as
scalar by the divide fast path, but no reciprocal multiplication happens
there: the empty-index read of the [1]-shaped operand panics (ndarray rejects
a rank-0 index into a rank-1 array), so no result is produced. -/
theorem c9_div_scalar1_shape_one_read_panics :
    div_compute (F := Int) ⟨[2], [2,4]⟩ ⟨[1], [2]⟩ = .panic .indexOOB := by
  decide

/-- Claim C9 (amended): the second operand of divide is treated as scalar by
the fast path exactly for shapes [] and [1] (not the [0] sentinel used for
the first operand); for shape [] the result multiplies every element of the
first operand by the reciprocal of the single element, while for shape [1]
the empty-index read of the fast path fails fatally. -/
theorem c9_div_scalar1_reciprocal {F : Type} [One F] [Mul F] [Div F]
    (x0 x1 : Arr F) (e : F) (h0 : x0.shape ≠ []) (h0' : x0.shape ≠ [0])
    (hd : x1.data = [e]) :
    (x1.shape = [] →
      div_compute x0 x1 = .owned ⟨x0.shape, x0.data.map (fun v => v * (1 / e))⟩) ∧
    (x1.shape = [1] → div_compute x0 x1 = .panic .indexOOB) := by
  constructor
  · intro h1
    simp [div_compute, readEmpty, h0, h0', h1, hd]
  · intro h1
    simp [div_compute, readEmpty, h0, h0', h1]

/-- Witness for the amended C9 at a concrete input. -/
theorem c9_div_scalar1_reciprocal_witness :
    div_compute (F := Int) ⟨[2], [3,9]⟩ ⟨[], [1]⟩ = .owned ⟨[2], [3,9]⟩ := by
  have h := (c9_div_scalar1_reciprocal (F := Int) ⟨[2], [3,9]⟩ ⟨[], [1]⟩ 1
    (by decide) (by decide) rfl).1 rfl
  exact h.trans (by decide)

/-- Claim C10 (counterexample): when the divide fast path is taken because the
shape of the first operand is the sentinel [0], the empty-index read is not
well-defined: a [0]-shaped array holds no elements and has rank 1, so the
read always fails. -/
theorem c10_zero_sentinel_read_oob :
    div_compute (F := Int) ⟨[0], []⟩ ⟨[3], [1,2,3]⟩ = .panic .indexOOB := by
  decide

/-- Claim C10 (amended): a fast path triggered by the [0] sentinel always
fails its empty-index read (in the add/multiply template and in divide),
whereas a fast path triggered by the true-scalar empty shape reads its single
element successfully on any well-formed operand. -/
theorem c10_empty_index_read_characterisation {F : Type} [Add F] [One F] [Mul F] [Div F]
    (x0 x1 : Arr F) :
    (x0.shape = [0] →
      (scalarLike x1.shape = false → add_forward x0 x1 = .panic .indexOOB) ∧
      div_compute x0 x1 = .panic .indexOOB) ∧
    (x0.shape = [] → x0.wf → scalarLike x1.shape = false →
      ∃ v, readEmpty x0 = some v ∧
        add_forward x0 x1 = .owned ⟨x1.shape, x1.data.map (fun a => a + v)⟩) := by
  constructor
  · intro h0
    have hs0 : scalarLike [0] = true := rfl
    constructor
    · intro h1
      simp [add_forward, binOpForward, readEmpty, h0, h1, hs0]
    · simp [div_compute, readEmpty, h0]
  · intro h0 hwf h1
    have hs0 : scalarLike ([] : List Nat) = true := rfl
    have hlen : x0.data.length = 1 := by
      have := hwf
      simp [Arr.wf, h0] at this
      exact this
    obtain ⟨v, hv⟩ := List.length_eq_one.mp hlen
    refine ⟨v, ?_, ?_⟩
    · simp [readEmpty, h0, hv]
    · simp [add_forward, binOpForward, readEmpty, h0, h1, hs0, hv]

/-- Witness for the amended C10 at a concrete input. -/
theorem c10_empty_index_read_characterisation_witness :
    div_compute (F := Int) ⟨[0], []⟩ ⟨[4], [1,2,3,4]⟩ = .panic .indexOOB ∧
    add_forward (F := Int) ⟨[], [2]⟩ ⟨[4], [1,2,3,4]⟩ = .owned ⟨[4], [3,4,5,6]⟩ := by
  constructor
  · exact ((c10_empty_index_read_characterisation (F := Int) ⟨[0], []⟩ ⟨[4], [1,2,3,4]⟩).1 rfl).2
  · have h := (c10_empty_index_read_characterisation (F := Int) ⟨[], [2]⟩ ⟨[4], [1,2,3,4]⟩).2
      rfl (by rfl) (by decide)
    obtain ⟨v, hv, ha⟩ := h
    have hv2 : v = 2 := by
      have : readEmpty (F := Int) ⟨[], [2]⟩ = some 2 := by decide
      rw [this] at hv
      exact (Option.some.injEq _ _).mp hv.symm
    rw [ha, hv2]
    decide

/-- Claim C2 (amended): the "Incorrect gradient shape" failure guards the
opposite comparison: whenever some zipped axis pair has the gradient axis
size strictly larger than a non-1 target axis size (and the target is not
scalar), the Reducer fails fatally with that error; a target axis exceeding
the gradient axis is not checked at all. -/
theorem c2_gradient_exceeds_target_panics {F : Type} [Zero F] [Add F]
    (gy : Arr F) (xShape : List Nat) (xa ga : Nat)
    (hmem : (xa, ga) ∈ xShape.zip gy.shape) (hlt : xa < ga) (h1 : xa ≠ 1)
    (hsc : isScalarShape xShape = false) :
    reduceCompute gy xShape = .panic .incorrectGradientShape := by
  have hne : xShape ≠ gy.shape := by
    intro he
    rw [he] at hmem
    have := mem_zip_same hmem
    simp at this
    omega
  have hloop := reduceLoop_fail_of_bad_pair gy (xShape.zip gy.shape) 0 none
    (by intro a ha; cases ha)
    (by
      rw [List.length_zip]
      simp [Nat.min_le_right])
    ⟨(xa, ga), hmem, hlt, h1⟩
  simp only [reduceCompute, hne, if_false, hsc, Bool.false_eq_true, hloop]

/-- Witness for the amended C2 at a concrete input. -/
theorem c2_gradient_exceeds_target_panics_witness :
    reduceCompute (F := Int) ⟨[3], [1,1,1]⟩ [2] = .panic .incorrectGradientShape :=
  c2_gradient_exceeds_target_panics ⟨[3], [1,1,1]⟩ [2] 2 3
    (by decide) (by decide) (by decide) (by decide)

/-- Claim C5 (amended): for the scalar target x_shape = [] the Reducer
compares against a same-rank all-ones shape and, whenever every axis of gy
has size at least 2, it folds axis 0 repeatedly and returns the single-value
array holding the sum of all elements of gy; in particular the spec example
gy of shape (2,3) filled with 1.0 gives the single value 6.0.  (The
restriction on the axis sizes is forced by the counterexample: a size-1 axis
of gy makes the scalar path fold the wrong axis.) -/
theorem c5_scalar_target_total_sum {F : Type} [AddCommMonoid F] (gy : Arr F)
    (hwf : gy.wf) (hne : gy.shape ≠ []) (hd : ∀ d ∈ gy.shape, 2 ≤ d) :
    reduceCompute gy [] = .owned ⟨[], [gy.data.sum]⟩ := by
  have hne2 : ([] : List Nat) ≠ gy.shape := fun h => hne h.symm
  cases hsh : gy.shape with
  | nil => exact absurd hsh hne
  | cons d rest =>
    have h2 : 2 ≤ d := hd d (by rw [hsh]; simp)
    obtain ⟨b, hb, hbsh, hbwf, hbsum⟩ := foldAxis0_step gy d rest hsh hwf
    rw [reduceCompute, if_neg hne2]
    have hsc : isScalarShape [] = true := rfl
    simp only [hsc, if_true]
    rw [zip_replicate_one gy.shape, hsh, List.map_cons, reduceLoop]
    simp only [show (1 : Nat) < d by omega, if_true, if_pos rfl, Option.getD_none, hb]
    rw [reduceLoop_scalar_sum gy rest 1 b hbwf hbsh
      (fun x hx => hd x (by rw [hsh]; simp [hx]))]
    rw [hbsum]

/-- Witness for the amended C5: the spec example itself, gy of shape (2,3)
filled with ones reduces to the single value 6. -/
theorem c5_scalar_target_total_sum_witness :
    reduceCompute (F := Int) ⟨[2,3], [1,1,1,1,1,1]⟩ [] = .owned ⟨[], [6]⟩ := by
  have h := c5_scalar_target_total_sum (F := Int) ⟨[2,3], [1,1,1,1,1,1]⟩
    (by rfl) (by decide) (by decide)
  exact h.trans (by decide)

/-- Claim C7 (amended): for add and multiply with non-scalar operands, the
evaluator puts the larger-by-element-count operand on the left; whenever the
shape of the operand the code places on the right broadcasts into the left
shape of the left operand (the one-sided broadcast the underlying array library
supports), the result equals the standard broadcast elementwise sum/product,
independent of which operand has more elements.  (The restriction from plain
broadcast compatibility to one-sided broadcastability is forced by the
counterexample: the library cannot co-broadcast both operands.) -/
theorem c7_forward_matches_standard_broadcast {F : Type} [AddCommMonoid F] [CommMonoid F]
    (x0 x1 : Arr F) (h0 : x0.wf) (h1 : x1.wf)
    (hs0 : scalarLike x0.shape = false) (hs1 : scalarLike x1.shape = false)
    (hbc : (if x1.shape.prod < x0.shape.prod then broadcastable x1.shape x0.shape
      else broadcastable x0.shape x1.shape) = true) :
    (∃ r, add_forward x0 x1 = .owned r ∧ npElementwise (fun a b => a + b) x0 x1 = some r) ∧
    (∃ r, mul_forward x0 x1 = .owned r ∧ npElementwise (fun a b => a * b) x0 x1 = some r) :=
  ⟨binOpForward_np_agree (fun a b => a + b) (fun a b => add_comm a b) x0 x1 h0 h1 hs0 hs1 hbc,
   binOpForward_np_agree (fun a b => a * b) (fun a b => mul_comm a b) x0 x1 h0 h1 hs0 hs1 hbc⟩

/-- Witness for the amended C7 at concrete inputs of shapes (2,3) and (3,). -/
theorem c7_forward_matches_standard_broadcast_witness :
    (∃ r, add_forward (F := Int) ⟨[2,3], [1,2,3,4,5,6]⟩ ⟨[3], [10,20,30]⟩ = .owned r ∧
      npElementwise (fun a b => a + b) (⟨[2,3], [1,2,3,4,5,6]⟩ : Arr Int) ⟨[3], [10,20,30]⟩ = some r) ∧
    (∃ r, mul_forward (F := Int) ⟨[2,3], [1,2,3,4,5,6]⟩ ⟨[3], [10,20,30]⟩ = .owned r ∧
      npElementwise (fun a b => a * b) (⟨[2,3], [1,2,3,4,5,6]⟩ : Arr Int) ⟨[3], [10,20,30]⟩ = some r) :=
  c7_forward_matches_standard_broadcast ⟨[2,3], [1,2,3,4,5,6]⟩ ⟨[3], [10,20,30]⟩
    (by rfl) (by rfl) (by decide) (by decide) (by decide)
